import Mathlib

/-!
Verification development for the delta-wallet discovery / claimability /
leaderboard pipeline.

The two core request handlers are shallowly embedded here:

* the leaderboard handler (`GET`): a NodeCache-backed cache check, the
  `withRetry` wrapper, the generation-1 paged leaderboard read, the
  generation-2 participant enumeration, the address-keyed merge, the
  winners filter / decimal conversion / descending sort / top-10 cut,
  and the Neynar identity enrichment;
* the winnings handler (`POST`): trade-history discovery, the fallback
  participation scan, and `computeClaimableWinnings`.

Remote reads are modelled by environment records (`GetEnv`, `ChainEnv`)
whose fields give, for each logical read, the outcome the wrapped call
finally produced (`Except` for calls whose failure is thrown, `Option`
where the code maps failure to null / end-of-sequence).  JavaScript
bigint values are `Nat`, display-scale amounts are `ℚ`, addresses are
`String`.
-/

namespace DeltaWallet

/-- Error value carried by a rejected remote call: an optional HTTP-like
status (429 signals rate limiting) and a message string. -/
structure RErr where
  status : Option Nat
  msg : String
deriving DecidableEq

instance {ε α : Type} [DecidableEq ε] [DecidableEq α] : DecidableEq (Except ε α) := fun a b =>
  match a, b with
  | .ok x, .ok y =>
    if h : x = y then .isTrue (by rw [h]) else .isFalse (by simp [h])
  | .error x, .error y =>
    if h : x = y then .isTrue (by rw [h]) else .isFalse (by simp [h])
  | .ok _, .error _ => .isFalse (by simp)
  | .error _, .ok _ => .isFalse (by simp)

/-- ASCII lowercasing of an address string, the model of the source's
uses of toLowerCase on wallet addresses. -/
def lowerStr (s : String) : String := String.mk (s.data.map Char.toLower)

/-- Substring test, the model of the source's uses of msg.includes(pat). -/
def strHasSub (hay pat : String) : Bool := decide (pat.data <:+: hay.data)

/-- JavaScript truthy-or on strings: the empty string is falsy, so the
fallback replaces it. -/
def truthyOr (s fallback : String) : String := if s = "" then fallback else s

/-- JavaScript truthy-or-null on an optional string: absent stays absent
and the empty string becomes null. -/
def pfpOrNull (o : Option String) : Option String :=
  match o with
  | some s => if s = "" then none else some s
  | none => none

/-- Association-list lookup modelling a JS Map get / object index. -/
def mapGet {β : Type} : List (String × β) → String → Option β
  | [], _ => none
  | p :: ps, k => if p.1 == k then some p.2 else mapGet ps k

/-- Association-list update modelling a JS Map set / object assignment:
an existing key keeps its position and gets the new value, a new key is
appended. -/
def mapSet {β : Type} : List (String × β) → String → β → List (String × β)
  | [], k, v => [(k, v)]
  | p :: ps, k, v => if p.1 == k then (k, v) :: ps else p :: mapSet ps k v

/-- Right-biased union of two association lists, the model of the JS
object spread that merges two records. -/
def mapUnion {β : Type} (m1 m2 : List (String × β)) : List (String × β) :=
  m2.foldl (fun m p => mapSet m p.1 p.2) m1

/-- First-occurrence deduplication, the model of building a JS Set from a
list and converting it back to an array. -/
def setDedupAux (seen : List Nat) : List Nat → List Nat
  | [] => []
  | x :: xs => if x ∈ seen then setDedupAux seen xs else x :: setDedupAux (x :: seen) xs

/-- Deduplicate keeping first occurrences (JS Set insertion order). -/
def setDedup (l : List Nat) : List Nat := setDedupAux [] l

/-- Numeric ascending sort, the model of sort with comparator a - b. -/
def sortAsc (l : List Nat) : List Nat := List.insertionSort (· ≤ ·) l

/-! ### withRetry -/

/-- Trace of one withRetry run: the final outcome, how many times the
wrapped operation was invoked, and the successive backoff delays slept
between attempts. -/
structure RetryTrace (α : Type) where
  result : Except RErr α
  calls : Nat
  delays : List Nat
deriving DecidableEq

/-- Backoff delay scheduled after failed attempt i: baseDelay * 2 ^ i,
floored to 10000 ms when the error carries HTTP status 429. -/
def delayFor (baseDelay i : Nat) (e : RErr) : Nat :=
  if e.status = some 429 then max (baseDelay * 2 ^ i) 10000 else baseDelay * 2 ^ i

/-- Loop body of withRetry.  The first argument of the recursion is the
number of attempts still allowed, the second the index of the current
attempt; fn i is the outcome of the i-th invocation of the wrapped
operation.  When the current attempt is the last one its error is
rethrown; otherwise the loop sleeps the scheduled delay and retries. -/
def withRetryGo {α : Type} (fn : Nat → Except RErr α) (baseDelay : Nat) :
    Nat → Nat → RetryTrace α
  | 0, _ => ⟨.error ⟨none, "Max retries reached"⟩, 0, []⟩
  | r + 1, i =>
    match fn i with
    | .ok v => ⟨.ok v, 1, []⟩
    | .error e =>
      if r = 0 then ⟨.error e, 1, []⟩
      else
        let t := withRetryGo fn baseDelay r (i + 1)
        ⟨t.result, t.calls + 1, delayFor baseDelay i e :: t.delays⟩

/-- withRetry(fn, retries, baseDelay) from the leaderboard route. -/
def withRetry {α : Type} (fn : Nat → Except RErr α) (retries baseDelay : Nat) : RetryTrace α :=
  withRetryGo fn baseDelay retries 0

/-! ### Leaderboard route (GET) -/

/-- One { user, totalWinnings, voteCount } tuple as read from either
contract generation. -/
structure RawEntry where
  user : String
  totalWinnings : Nat
  voteCount : Nat
deriving DecidableEq

/-- Cached Neynar user record. -/
structure NeynarUser where
  username : String
  fid : String
  pfp_url : Option String
deriving DecidableEq

/-- Raw Neynar API user record. -/
structure NeynarRawUser where
  username : String
  fid : Nat
  pfp_url : Option String
deriving DecidableEq

/-- Final leaderboard entry returned by the GET handler. -/
structure LeaderboardEntry where
  username : String
  fid : String
  pfp_url : Option String
  winnings : ℚ
  voteCount : Nat
  address : String
deriving DecidableEq

/-- userPortfolios tuple: [totalInvested, totalWinnings, unrealizedPnL,
realizedPnL, tradeCount]. -/
structure Portfolio where
  totalInvested : Nat
  totalWinnings : Nat
  unrealizedPnL : Nat
  realizedPnL : Nat
  tradeCount : Nat
deriving DecidableEq

/-- Environment of the GET handler: the outcome of each wrapped remote
read.  v2Participant returns none where the code's catch maps a failed
allParticipants read to null. -/
structure GetEnv where
  neynarApiKey : Option String
  tokenDecimals : Except RErr Nat
  v1Count : Except RErr Nat
  v1Page : Nat → Except RErr (List RawEntry)
  v2Participant : Nat → Option String
  v2Portfolio : String → Except RErr Portfolio
  neynarLookup : List String → Except RErr (List (String × List NeynarRawUser))

/-- Users per contract call. -/
def PAGE_SIZE : Nat := 100

/-- Generation-1 paging loop: for (start = 0; start < count; start += PAGE_SIZE)
push getLeaderboard(start, PAGE_SIZE).  First recursion argument is the
remaining fuel (count always suffices), second the current offset. -/
def fetchV1Loop (env : GetEnv) (count : Nat) : Nat → Nat → Except RErr (List RawEntry)
  | 0, _ => .ok []
  | fuel + 1, start =>
    if start < count then
      match env.v1Page start with
      | .error e => .error e
      | .ok batch =>
        match fetchV1Loop env count fuel (start + PAGE_SIZE) with
        | .error e => .error e
        | .ok rest => .ok (batch ++ rest)
    else .ok []

/-- Generation-1 fetch: read getAllParticipantsCount, then page. -/
def fetchV1Entries (env : GetEnv) : Except RErr (List RawEntry) :=
  match env.v1Count with
  | .error e => .error e
  | .ok count => fetchV1Loop env count count 0

/-- Page offsets the generation-1 loop visits when the participant count
is count, starting from offset start. -/
def pageStartsFrom (count start : Nat) : List Nat :=
  (List.range ((count - start + PAGE_SIZE - 1) / PAGE_SIZE)).map (fun i => start + i * PAGE_SIZE)

/-- Process one generation-2 batch of allParticipants reads: a null entry
signals the end; for each address the portfolio is fetched, a failed
portfolio read skips that participant, and a participant is kept only
with nonzero cumulative winnings. -/
def processV2Batch (env : GetEnv) : List (Option String) → (List RawEntry × Bool)
  | [] => ([], false)
  | none :: _ => ([], true)
  | some addr :: rest =>
    let here :=
      match env.v2Portfolio addr with
      | .ok p => if 0 < p.totalWinnings then [⟨addr, p.totalWinnings, p.tradeCount⟩] else []
      | .error _ => []
    let (es, ended) := processV2Batch env rest
    (here ++ es, ended)

/-- Generation-2 enumeration loop: while participants remain and the
index is below the 10000 safety limit, read a batch of PAGE_SIZE
participants and process it; a null anywhere in the batch terminates. -/
def fetchV2Loop (env : GetEnv) : Nat → Nat → List RawEntry
  | 0, _ => []
  | fuel + 1, idx =>
    if idx < 10000 then
      let batch := (List.range PAGE_SIZE).map (fun i => env.v2Participant (idx + i))
      let (es, ended) := processV2Batch env batch
      if ended then es else es ++ fetchV2Loop env fuel (idx + PAGE_SIZE)
    else []

/-- Generation-2 fetch (100 batches of 100 cover the 10000 limit). -/
def fetchV2Entries (env : GetEnv) : List RawEntry :=
  fetchV2Loop env 100 0

/-- Insert the generation-1 entries into the combined map: set keyed by
the lowercased address, overwriting. -/
def addV1 (m : List (String × RawEntry)) (es : List RawEntry) : List (String × RawEntry) :=
  es.foldl (fun m e => mapSet m (lowerStr e.user) ⟨e.user, e.totalWinnings, e.voteCount⟩) m

/-- Insert the generation-2 entries into the combined map: an address
already present gets totalWinnings and voteCount summed, a new address
is inserted as-is. -/
def addV2 (m : List (String × RawEntry)) (es : List RawEntry) : List (String × RawEntry) :=
  es.foldl
    (fun m e =>
      match mapGet m (lowerStr e.user) with
      | some ex =>
        mapSet m (lowerStr e.user) ⟨e.user, ex.totalWinnings + e.totalWinnings, ex.voteCount + e.voteCount⟩
      | none => mapSet m (lowerStr e.user) ⟨e.user, e.totalWinnings, e.voteCount⟩)
    m

/-- Combined V1+V2 entry map keyed by lowercased address. -/
def mergeEntries (es1 es2 : List RawEntry) : List (String × RawEntry) :=
  addV2 (addV1 [] es1) es2

/-- Winner record after filtering and decimal conversion. -/
structure Winner where
  address : String
  winnings : ℚ
  voteCount : Nat
deriving DecidableEq

/-- Filter the merged map to entries with positive winnings and convert
the fixed-point amount to display scale with the token decimals. -/
def buildWinners (combined : List (String × RawEntry)) (tokenDecimals : Nat) : List Winner :=
  ((combined.map Prod.snd).filter (fun e => decide (0 < e.totalWinnings))).map
    (fun e => ⟨lowerStr e.user, (e.totalWinnings : ℚ) / 10 ^ tokenDecimals, e.voteCount⟩)

/-- Split a list into chunks of 25 (the Neynar batch size); the fuel is
the list length. -/
def chunksGo : Nat → List String → List (List String)
  | 0, _ => []
  | _, [] => []
  | fuel + 1, x :: xs => (x :: xs).take 25 :: chunksGo fuel ((x :: xs).drop 25)

/-- batchFetchNeynarUsers: look addresses up in chunks of 25, skipping a
chunk whose (retried) lookup still fails, keying results by lowercased
address and normalizing the raw users. -/
def batchFetchNeynarUsers (env : GetEnv) (addresses : List String) :
    List (String × List NeynarUser) :=
  (chunksGo addresses.length addresses).foldl
    (fun acc batch =>
      match env.neynarLookup batch with
      | .ok m =>
        m.foldl
          (fun acc p =>
            mapSet acc (lowerStr p.1)
              (p.2.map (fun u => ⟨u.username, toString u.fid, pfpOrNull u.pfp_url⟩)))
          acc
      | .error _ => acc)
    []

/-- Shortened address display string, the model of the template
addr.slice(0, 6) + "..." + addr.slice(-4). -/
def sliceAddr (a : String) : String := a.take 6 ++ "..." ++ a.takeRight 4

/-- Build one final leaderboard entry from a winner and the identity
map; a missing or empty identity degrades to the truncated address. -/
def enrichWinner (userMap : List (String × List NeynarUser)) (w : Winner) : LeaderboardEntry :=
  let user := (mapGet userMap w.address).bind List.head?
  { username :=
      match user with
      | some u => truthyOr u.username (sliceAddr w.address)
      | none => sliceAddr w.address
    fid :=
      match user with
      | some u => truthyOr u.fid "nil"
      | none => "nil"
    pfp_url :=
      match user with
      | some u => pfpOrNull u.pfp_url
      | none => none
    winnings := w.winnings
    voteCount := w.voteCount
    address := w.address }

/-- Descending-by-winnings order used by the final sort comparator. -/
def winningsDesc (a b : LeaderboardEntry) : Prop := b.winnings ≤ a.winnings

instance : DecidableRel winningsDesc := fun a b =>
  inferInstanceAs (Decidable (b.winnings ≤ a.winnings))

/-- Enrich all winners, sort descending by winnings, keep the top 10. -/
def buildLeaderboard (winners : List Winner) (userMap : List (String × List NeynarUser)) :
    List LeaderboardEntry :=
  (List.insertionSort winningsDesc (winners.map (enrichWinner userMap))).take 10

/-- NodeCache-backed state of the route module: the leaderboard entry
and the Neynar entry, each a value with its expiry instant (0 meaning no
expiry, matching NodeCache). -/
structure SysState where
  lb : Option (List LeaderboardEntry × Nat)
  ny : Option (List (String × List NeynarUser) × Nat)
deriving DecidableEq

/-- NodeCache get on the leaderboard key: an entry is expired only when
its expiry instant lies strictly in the past (node-cache serves the
value when data.t = 0 or data.t >= Date.now()); an expired entry is
deleted and the get misses. -/
def cacheGetLB (now : Nat) (s : SysState) : Option (List LeaderboardEntry) × SysState :=
  match s.lb with
  | none => (none, s)
  | some (v, t) => if t = 0 ∨ now ≤ t then (some v, s) else (none, { s with lb := none })

/-- NodeCache get on the Neynar key, same semantics. -/
def cacheGetNY (now : Nat) (s : SysState) :
    Option (List (String × List NeynarUser)) × SysState :=
  match s.ny with
  | none => (none, s)
  | some (v, t) => if t = 0 ∨ now ≤ t then (some v, s) else (none, { s with ny := none })

/-- Body of the try block after the credential check: read the token
decimals, fetch and merge both generations, build the winners, enrich
identities through the Neynar cache, build the final list and cache it
for one hour.  A thrown read surfaces as an error; all throwing reads
precede every cache write. -/
def refreshBody (env : GetEnv) (now : Nat) (s : SysState) :
    Except RErr (List LeaderboardEntry × SysState) :=
  match env.tokenDecimals with
  | .error e => .error e
  | .ok d =>
    match fetchV1Entries env with
    | .error e => .error e
    | .ok entriesV1 =>
      let entriesV2 := fetchV2Entries env
      let combined := mergeEntries entriesV1 entriesV2
      let winners := buildWinners combined d
      let (nyCached, s1) := cacheGetNY now s
      let nyCache := nyCached.getD []
      let toFetch := (winners.map Winner.address).filter (fun a => (mapGet nyCache a).isNone)
      let (userMap, s2) :=
        if toFetch.isEmpty then (nyCache, s1)
        else
          let merged := mapUnion nyCache (batchFetchNeynarUsers env toFetch)
          (merged, { s1 with ny := some (merged, now + 86400 * 1000) })
      let leaderboard := buildLeaderboard winners userMap
      .ok (leaderboard, { s2 with lb := some (leaderboard, now + 3600 * 1000) })

/-- Observable outcome of the GET handler. -/
inductive GetResult where
  | ok (lb : List LeaderboardEntry)
  | configError
  | fetchError
deriving DecidableEq

/-- The GET handler: serve a live cache entry; otherwise fail fast on a
missing NEYNAR_API_KEY; otherwise refresh, and on a thrown refresh fall
back to whatever the cache can still serve, else report failure. -/
def GET (env : GetEnv) (now : Nat) (s : SysState) : GetResult × SysState :=
  match cacheGetLB now s with
  | (some v, s1) => (.ok v, s1)
  | (none, s1) =>
    match env.neynarApiKey with
    | none => (.configError, s1)
    | some _ =>
      match refreshBody env now s1 with
      | .ok (lb, s2) => (.ok lb, s2)
      | .error _ =>
        match cacheGetLB now s1 with
        | (some v, s2) => (.ok v, s2)
        | (none, s2) => (.fetchError, s2)

/-! ### Winnings route (POST) -/

/-- getMarketBasicInfo fields the route reads: tuple index 4 is the
option count, 5 resolved, 7 invalidated. -/
structure MarketBasicInfo where
  optionCount : Nat
  resolved : Bool
  invalidated : Bool
deriving DecidableEq

/-- getMarketExtendedMeta fields the route reads: tuple index 0 is the
winning option id, 1 the dispute flag. -/
structure ExtendedMeta where
  winningOptionId : Nat
  disputed : Bool
deriving DecidableEq

/-- One claimable-winnings record emitted by the route. -/
structure UserWinnings where
  marketId : Nat
  amount : Nat
  hasWinnings : Bool
deriving DecidableEq

/-- Environment of the POST handler: outcomes of the remote reads keyed
the way the route calls them.  tradeEntry models userTradeHistory(wallet, i)
collapsed to the referenced market id, none meaning the revert or falsy
result that ends the sequence. -/
structure ChainEnv where
  marketCount : Except RErr Nat
  payoutPerShare : Except RErr Nat
  basicInfo : Nat → Except RErr MarketBasicInfo
  extendedMeta : Nat → Except RErr ExtendedMeta
  optionShares : Nat → Nat → String → Except RErr Nat
  simulateClaim : Nat → String → Except RErr Unit
  tradeEntry : String → Nat → Option Nat

/-- Sequential trade-history read: indices 0, 1, 2, ... until a read
fails or is falsy, capped at 100 attempts. -/
def readTrades (env : ChainEnv) (wallet : String) : Nat → Nat → List Nat
  | 0, _ => []
  | fuel + 1, i =>
    match env.tradeEntry wallet i with
    | none => []
    | some t => t :: readTrades env wallet fuel (i + 1)

/-- readUserTradeHistory with the maxAttempts = 100 cap. -/
def readUserTradeHistory (env : ChainEnv) (wallet : String) : List Nat :=
  readTrades env wallet 100 0

/-- discoverUserMarketsFromTrades: collect the market ids referenced by
the trade history into a set and return them sorted ascending. -/
def discoverUserMarketsFromTrades (env : ChainEnv) (wallet : String) : List Nat :=
  let th := readUserTradeHistory env wallet
  if th.isEmpty then [] else sortAsc (setDedup th)

/-- Inner option loop of the fallback scan: walk the options in order,
stop at the first nonzero share balance; a thrown share read aborts the
whole market. -/
def scanOptions (env : ChainEnv) (wallet : String) (marketId : Nat) :
    List Nat → Except RErr Bool
  | [] => .ok false
  | o :: rest =>
    match env.optionShares marketId o wallet with
    | .error e => .error e
    | .ok s => if 0 < s then .ok true else scanOptions env wallet marketId rest

/-- Per-market body of the fallback scan: read the basic info, then the
per-option balances; any thrown read just skips the market. -/
def processScanMarket (env : ChainEnv) (wallet : String) (marketId : Nat) : Bool :=
  match env.basicInfo marketId with
  | .error _ => false
  | .ok basic =>
    match scanOptions env wallet marketId (List.range basic.optionCount) with
    | .error _ => false
    | .ok p => p

/-- fallbackScanParticipation: read marketCount (empty on zero), read
PAYOUT_PER_SHARE (unused), then scan markets 0 .. min(count, 300) - 1
keeping those where some option balance is nonzero.  A throw outside the
per-market try aborts with whatever was gathered (nothing). -/
def fallbackScanParticipation (env : ChainEnv) (wallet : String) : List Nat :=
  match env.marketCount with
  | .error _ => []
  | .ok mCount =>
    if mCount = 0 then []
    else
      match env.payoutPerShare with
      | .error _ => []
      | .ok _ => (List.range (min mCount 300)).filter (processScanMarket env wallet)

/-- Payout constant read once per batch, with the hardcoded fallback
used when the read fails. -/
def payoutOf (env : ChainEnv) : Nat :=
  match env.payoutPerShare with
  | .ok p => p
  | .error _ => 100 * 10 ^ 18

/-- Claimability verdict of the speculative claim: success means
claimable; a failure is inspected for the AlreadyClaimed and
NoWinningShares reasons, and every failure branch yields not claimable. -/
def claimableAfterSim (r : Except RErr Unit) : Bool :=
  match r with
  | .ok _ => true
  | .error e =>
    if strHasSub (lowerStr e.msg) "alreadyclaimed" || strHasSub (lowerStr e.msg) "nowinningshares"
    then false
    else false

/-- Per-market body of computeClaimableWinnings: skip unless resolved,
not invalidated, not disputed, with nonzero winning-option shares, a
successful claim simulation and a positive amount; any thrown read skips
the market. -/
def processMarket (env : ChainEnv) (wallet : String) (payout marketId : Nat) :
    Option UserWinnings :=
  match env.basicInfo marketId with
  | .error _ => none
  | .ok basic =>
    if basic.resolved = false ∨ basic.invalidated = true then none
    else
      match env.extendedMeta marketId with
      | .error _ => none
      | .ok ext =>
        if ext.disputed then none
        else
          match env.optionShares marketId ext.winningOptionId wallet with
          | .error _ => none
          | .ok shares =>
            if shares = 0 then none
            else
              if claimableAfterSim (env.simulateClaim marketId wallet) = false then none
              else
                if 0 < shares * payout / 10 ^ 18 then
                  some ⟨marketId, shares * payout / 10 ^ 18, true⟩
                else none

/-- computeClaimableWinnings: empty input short-circuits, otherwise the
payout constant is read once and each market is processed independently. -/
def computeClaimableWinnings (env : ChainEnv) (wallet : String) (markets : List Nat) :
    List UserWinnings :=
  if markets.isEmpty then []
  else markets.filterMap (processMarket env wallet (payoutOf env))

/-- Steps 1-2 of the POST handler: trade-history discovery, the fallback
scan only when that yields nothing, then dedup and ascending sort. -/
def participatedMarketsOf (env : ChainEnv) (wallet : String) : List Nat :=
  let p1 := discoverUserMarketsFromTrades env wallet
  let p2 := if p1.length = 0 then fallbackScanParticipation env wallet else p1
  sortAsc (setDedup p2)

/-! ### Lemmas about withRetry -/

theorem withRetryGo_calls_le {α : Type} (fn : Nat → Except RErr α) (b : Nat) :
    ∀ r i, (withRetryGo fn b r i).calls ≤ r := by
  intro r
  induction r with
  | zero => intro i; simp [withRetryGo]
  | succ n ih =>
    intro i
    cases h : fn i with
    | ok v => simp [withRetryGo, h]
    | error e =>
      by_cases hn : n = 0
      · simp [withRetryGo, h, hn]
      · simp only [withRetryGo, h, if_neg hn]
        exact Nat.succ_le_succ (ih (i + 1))

theorem withRetryGo_first_success {α : Type} (fn : Nat → Except RErr α) (b : Nat) :
    ∀ r i k v, i ≤ k → k < i + r → (∀ j, i ≤ j → j < k → ∃ e, fn j = .error e) →
      fn k = .ok v → (withRetryGo fn b r i).result = .ok v := by
  intro r
  induction r with
  | zero => intro i k v h1 h2 _ _; omega
  | succ n ih =>
    intro i k v h1 h2 hfail hok
    by_cases hik : k = i
    · subst hik
      simp [withRetryGo, hok]
    · have hlt : i < k := lt_of_le_of_ne h1 (Ne.symm hik)
      obtain ⟨e, he⟩ := hfail i le_rfl hlt
      have hn : n ≠ 0 := by omega
      simp only [withRetryGo, he, if_neg hn]
      exact ih (i + 1) k v (by omega) (by omega) (fun j hj1 hj2 => hfail j (by omega) hj2) hok

theorem withRetryGo_delays {α : Type} (fn : Nat → Except RErr α) (b : Nat) :
    ∀ r i j d, (withRetryGo fn b r i).delays[j]? = some d →
      ∃ e, fn (i + j) = .error e ∧ d = delayFor b (i + j) e := by
  intro r
  induction r with
  | zero => intro i j d h; simp [withRetryGo] at h
  | succ n ih =>
    intro i j d h
    cases he : fn i with
    | ok v => rw [show (withRetryGo fn b (n + 1) i) = ⟨.ok v, 1, []⟩ by simp [withRetryGo, he]] at h; simp at h
    | error e =>
      by_cases hn : n = 0
      · rw [show (withRetryGo fn b (n + 1) i) = ⟨.error e, 1, []⟩ by simp [withRetryGo, he, hn]] at h
        simp at h
      · simp only [withRetryGo, he, if_neg hn] at h
        cases j with
        | zero =>
          simp at h
          exact ⟨e, by simpa using he, by simpa using h.symm⟩
        | succ j =>
          simp at h
          obtain ⟨e', he', hd⟩ := ih (i + 1) j d h
          refine ⟨e', ?_, ?_⟩
          · have : i + 1 + j = i + (j + 1) := by omega
            rw [← this]; exact he'
          · have : i + 1 + j = i + (j + 1) := by omega
            rw [← this]; exact hd

theorem withRetryGo_all_fail {α : Type} (fn : Nat → Except RErr α) (b : Nat) :
    ∀ r i, 1 ≤ r → (∀ j, i ≤ j → j < i + r → ∃ e, fn j = .error e) →
      ∃ e, fn (i + r - 1) = .error e ∧ (withRetryGo fn b r i).result = .error e := by
  intro r
  induction r with
  | zero => intro i h; omega
  | succ n ih =>
    intro i _ hfail
    by_cases hn : n = 0
    · subst hn
      obtain ⟨e, he⟩ := hfail i le_rfl (by omega)
      exact ⟨e, by simpa using he, by simp [withRetryGo, he]⟩
    · obtain ⟨e, he⟩ := hfail i le_rfl (by omega)
      obtain ⟨e', he', hres⟩ := ih (i + 1) (by omega) (fun j h1 h2 => hfail j (by omega) (by omega))
      refine ⟨e', ?_, ?_⟩
      · have : i + 1 + n - 1 = i + (n + 1) - 1 := by omega
        rw [← this]; exact he'
      · simp only [withRetryGo, he, if_neg hn]
        exact hres

/-- C7: for every operation, retry count n >= 1 and base delay, withRetry
invokes the operation at most n times and returns the result of the first
successful invocation; the delay slept after the i-th failed attempt is
baseDelay * 2 ^ i, raised to at least 10000 ms when the failure carries
status 429; if all n attempts fail the last error is surfaced. -/
theorem claim_C7_withRetry {α : Type} (fn : Nat → Except RErr α) (retries baseDelay : Nat)
    (hr : 1 ≤ retries) :
    (withRetry fn retries baseDelay).calls ≤ retries ∧
    (∀ k v, k < retries → (∀ j, j < k → ∃ e, fn j = .error e) → fn k = .ok v →
      (withRetry fn retries baseDelay).result = .ok v) ∧
    (∀ i d, (withRetry fn retries baseDelay).delays[i]? = some d →
      ∃ e, fn i = .error e ∧ d = delayFor baseDelay i e ∧
        (e.status = some 429 → 10000 ≤ d)) ∧
    ((∀ j, j < retries → ∃ e, fn j = .error e) →
      ∃ e, fn (retries - 1) = .error e ∧ (withRetry fn retries baseDelay).result = .error e) := by
  refine ⟨withRetryGo_calls_le fn baseDelay retries 0, ?_, ?_, ?_⟩
  · intro k v hk hfail hok
    exact withRetryGo_first_success fn baseDelay retries 0 k v (Nat.zero_le k) (by omega)
      (fun j _ hj => hfail j hj) hok
  · intro i d h
    obtain ⟨e, he, hd⟩ := withRetryGo_delays fn baseDelay retries 0 i d h
    refine ⟨e, by simpa using he, by simpa using hd, ?_⟩
    intro h429
    rw [hd]
    simp only [delayFor]
    rw [if_pos (by simpa using h429)]
    exact le_max_right _ _
  · intro hfail
    obtain ⟨e, he, hres⟩ :=
      withRetryGo_all_fail fn baseDelay retries 0 hr (fun j _ hj => hfail j (by omega))
    exact ⟨e, by simpa using he, hres⟩

/-- Concrete operation for the C7 witness: attempt 0 fails rate-limited,
attempt 1 succeeds. -/
def fnW : Nat → Except RErr Nat :=
  fun k => if k = 0 then .error ⟨some 429, "rate limited"⟩ else .ok 7

theorem claim_C7_withRetry_witness :
    (withRetry fnW 3 2000).calls ≤ 3 ∧ (withRetry fnW 3 2000).result = .ok 7 := by
  have h := claim_C7_withRetry fnW 3 2000 (by omega)
  refine ⟨h.1, h.2.1 1 7 (by omega) ?_ (by decide)⟩
  intro j hj
  have hj0 : j = 0 := by omega
  subst hj0
  exact ⟨⟨some 429, "rate limited"⟩, rfl⟩

/-! ### Lemmas about the winnings route -/

theorem claimableAfterSim_true (r : Except RErr Unit) (h : claimableAfterSim r = true) :
    r = .ok () := by
  cases r with
  | ok u => cases u; rfl
  | error e => simp [claimableAfterSim] at h

theorem computeClaimableWinnings_eq (env : ChainEnv) (wallet : String) (markets : List Nat) :
    computeClaimableWinnings env wallet markets
      = markets.filterMap (processMarket env wallet (payoutOf env)) := by
  cases markets <;> simp [computeClaimableWinnings]

theorem processMarket_eq_some_iff (env : ChainEnv) (wallet : String) (payout m : Nat)
    (w : UserWinnings) :
    processMarket env wallet payout m = some w ↔
      ∃ basic ext shares,
        env.basicInfo m = .ok basic ∧ basic.resolved = true ∧ basic.invalidated = false ∧
        env.extendedMeta m = .ok ext ∧ ext.disputed = false ∧
        env.optionShares m ext.winningOptionId wallet = .ok shares ∧ shares ≠ 0 ∧
        env.simulateClaim m wallet = .ok () ∧ 0 < shares * payout / 10 ^ 18 ∧
        w = ⟨m, shares * payout / 10 ^ 18, true⟩ := by
  constructor
  · intro h
    unfold processMarket at h
    split at h
    · exact absurd h (by simp)
    next basic hb =>
      split at h
      · exact absurd h (by simp)
      next hres =>
        have h1 : basic.resolved = true := by
          cases h' : basic.resolved
          · exact absurd (Or.inl h') hres
          · rfl
        have h2 : basic.invalidated = false := by
          cases h' : basic.invalidated
          · rfl
          · exact absurd (Or.inr h') hres
        split at h
        · exact absurd h (by simp)
        next ext hx =>
          split at h
          · exact absurd h (by simp)
          next hd =>
            split at h
            · exact absurd h (by simp)
            next shares hs =>
              split at h
              · exact absurd h (by simp)
              next hz =>
                split at h
                · exact absurd h (by simp)
                next hc =>
                  have hc' : claimableAfterSim (env.simulateClaim m wallet) = true := by
                    revert hc; cases claimableAfterSim (env.simulateClaim m wallet) <;> simp
                  have hsim := claimableAfterSim_true _ hc'
                  split at h
                  next ha =>
                    injection h with h
                    exact ⟨basic, ext, shares, hb, h1, h2, hx,
                      (by simpa using hd), hs, hz, hsim, ha, h.symm⟩
                  · exact absurd h (by simp)
  · rintro ⟨basic, ext, shares, hb, h1, h2, hx, hd, hs, hz, hsim, ha, rfl⟩
    simp [processMarket, hb, hx, hs, hsim, h1, h2, hd, hz, ha, claimableAfterSim]
    rw [show (1000000000000000000 : Nat) = 10 ^ 18 by norm_num]
    exact ha.ne'

/-- C2: a ClaimEligibility record is emitted by computeClaimableWinnings
only if the market is resolved, not invalidated, not disputed, the
wallet's winning-option share balance is nonzero, and the speculative
claim simulation succeeds; a market whose basic info reads unresolved
never appears in the output. -/
theorem claim_C2_claimEligibility (env : ChainEnv) (wallet : String) (markets : List Nat) :
    (∀ w ∈ computeClaimableWinnings env wallet markets,
      ∃ basic ext shares,
        env.basicInfo w.marketId = .ok basic ∧ basic.resolved = true ∧
        basic.invalidated = false ∧
        env.extendedMeta w.marketId = .ok ext ∧ ext.disputed = false ∧
        env.optionShares w.marketId ext.winningOptionId wallet = .ok shares ∧ shares ≠ 0 ∧
        env.simulateClaim w.marketId wallet = .ok ()) ∧
    (∀ m basic, env.basicInfo m = .ok basic → basic.resolved = false →
      ∀ w ∈ computeClaimableWinnings env wallet markets, w.marketId ≠ m) := by
  have hmem : ∀ w ∈ computeClaimableWinnings env wallet markets,
      ∃ m ∈ markets, processMarket env wallet (payoutOf env) m = some w := by
    intro w hw
    rw [computeClaimableWinnings_eq] at hw
    exact List.mem_filterMap.1 hw
  constructor
  · intro w hw
    obtain ⟨m, _, hm⟩ := hmem w hw
    obtain ⟨basic, ext, shares, hb, h1, h2, hx, hd, hs, hz, hsim, _, rfl⟩ :=
      (processMarket_eq_some_iff env wallet (payoutOf env) m w).1 hm
    exact ⟨basic, ext, shares, hb, h1, h2, hx, hd, hs, hz, hsim⟩
  · intro m basic hb hunres w hw hwm
    obtain ⟨m', _, hm'⟩ := hmem w hw
    obtain ⟨basic', ext, shares, hb', h1, _, _, _, _, _, _, _, rfl⟩ :=
      (processMarket_eq_some_iff env wallet (payoutOf env) m' w).1 hm'
    simp only at hwm
    subst hwm
    rw [hb] at hb'
    injection hb' with hb'
    rw [← hb'] at h1
    rw [h1] at hunres
    exact Bool.true_eq_false.mp hunres

/-- Concrete environment for the C2 witness: market 9 is resolved, not
invalidated, not disputed, with nonzero winning-option shares and a
successful claim simulation; every other market is unresolved. -/
def env2 : ChainEnv where
  marketCount := .ok 10
  payoutPerShare := .ok (100 * 10 ^ 18)
  basicInfo := fun m => if m = 9 then .ok ⟨2, true, false⟩ else .ok ⟨2, false, false⟩
  extendedMeta := fun _ => .ok ⟨1, false⟩
  optionShares := fun m o _ => if m = 9 ∧ o = 1 then .ok (2 * 10 ^ 18) else .ok 0
  simulateClaim := fun m _ => if m = 9 then .ok () else .error ⟨none, "MarketNotReady"⟩
  tradeEntry := fun _ _ => none

theorem claim_C2_claimEligibility_witness :
    ∃ basic ext shares,
      env2.basicInfo 9 = .ok basic ∧ basic.resolved = true ∧ basic.invalidated = false ∧
      env2.extendedMeta 9 = .ok ext ∧ ext.disputed = false ∧
      env2.optionShares 9 ext.winningOptionId "0xw" = .ok shares ∧ shares ≠ 0 ∧
      env2.simulateClaim 9 "0xw" = .ok () :=
  (claim_C2_claimEligibility env2 "0xw" [3, 9]).1 ⟨9, 200 * 10 ^ 18, true⟩ (by decide)

/-- C8: a per-market processing error (a thrown basic-info read) only
removes that market from the batch, leaving every other market's result
unchanged; a claim simulation rejected with an AlreadyClaimed reason on a
market with nonzero winning shares keeps that market out of the winnings
output, with the rest of the batch still produced. -/
theorem claim_C8_perMarket_isolation (env : ChainEnv) (wallet : String) :
    (∀ err m ms1 ms2, env.basicInfo m = .error err →
      computeClaimableWinnings env wallet (ms1 ++ m :: ms2)
        = computeClaimableWinnings env wallet (ms1 ++ ms2)) ∧
    (∀ m basic ext shares e markets,
      env.basicInfo m = .ok basic → basic.resolved = true → basic.invalidated = false →
      env.extendedMeta m = .ok ext → ext.disputed = false →
      env.optionShares m ext.winningOptionId wallet = .ok shares → 0 < shares →
      env.simulateClaim m wallet = .error e →
      strHasSub (lowerStr e.msg) "alreadyclaimed" = true →
      ∀ w ∈ computeClaimableWinnings env wallet markets, w.marketId ≠ m) := by
  constructor
  · intro err m ms1 ms2 hb
    rw [computeClaimableWinnings_eq, computeClaimableWinnings_eq,
      List.filterMap_append, List.filterMap_append]
    congr 1
    simp [List.filterMap_cons, processMarket, hb]
  · intro m basic ext shares e markets hb h1 h2 hx hd hs hz hsim _ w hw hwm
    rw [computeClaimableWinnings_eq] at hw
    obtain ⟨m', _, hm'⟩ := List.mem_filterMap.1 hw
    obtain ⟨basic', ext', shares', _, _, _, _, _, _, _, hsim', _, rfl⟩ :=
      (processMarket_eq_some_iff env wallet (payoutOf env) m' w).1 hm'
    simp only at hwm
    subst hwm
    rw [hsim] at hsim'
    exact absurd hsim' (by simp)

/-- Concrete environment for the C8 witness: market 1's basic-info read
throws, market 9's claim simulation reverts with AlreadyClaimed, market 2
is fully claimable. -/
def env8 : ChainEnv where
  marketCount := .ok 10
  payoutPerShare := .ok (100 * 10 ^ 18)
  basicInfo := fun m => if m = 1 then .error ⟨none, "bad market"⟩ else .ok ⟨2, true, false⟩
  extendedMeta := fun _ => .ok ⟨0, false⟩
  optionShares := fun _ _ _ => .ok (3 * 10 ^ 18)
  simulateClaim := fun m _ =>
    if m = 9 then .error ⟨none, "Reverted: AlreadyClaimed()"⟩ else .ok ()
  tradeEntry := fun _ _ => none

theorem claim_C8_perMarket_isolation_witness :
    computeClaimableWinnings env8 "0xw" ([2] ++ 1 :: [9])
        = computeClaimableWinnings env8 "0xw" ([2] ++ [9]) ∧
    ∀ w ∈ computeClaimableWinnings env8 "0xw" [2, 9], w.marketId ≠ 9 := by
  constructor
  · exact (claim_C8_perMarket_isolation env8 "0xw").1 ⟨none, "bad market"⟩ 1 [2] [9] rfl
  · exact (claim_C8_perMarket_isolation env8 "0xw").2 9 ⟨2, true, false⟩ ⟨0, false⟩
      (3 * 10 ^ 18) ⟨none, "Reverted: AlreadyClaimed()"⟩ [2, 9] rfl rfl rfl rfl rfl rfl
      (by decide) rfl (by decide)

/-- Concrete environment for the C4 failing input: one single market,
market 0, which is unresolved with one option on which the wallet holds 5
shares. -/
def env4 : ChainEnv where
  marketCount := .ok 1
  payoutPerShare := .ok (100 * 10 ^ 18)
  basicInfo := fun _ => .ok ⟨1, false, false⟩
  extendedMeta := fun _ => .error ⟨none, ""⟩
  optionShares := fun _ _ _ => .ok 5
  simulateClaim := fun _ _ => .error ⟨none, ""⟩
  tradeEntry := fun _ _ => none

/-- C4 (code bug evidence): the fallback scan includes market 0 although
its basic info reads unresolved, because the code never checks the
resolved flag it fetched, contradicting its own comments scan resolved
markets and fallback scan (resolved markets only). -/
theorem claim_C4_fallbackScan_codebug :
    env4.basicInfo 0 = .ok ⟨1, false, false⟩ ∧
    fallbackScanParticipation env4 "0xwallet" = [0] :=
  ⟨rfl, by decide⟩

/-! ### Lemmas about deduplication and sorting -/

theorem setDedupAux_spec : ∀ (l seen : List Nat),
    (setDedupAux seen l).Nodup ∧ ∀ y ∈ setDedupAux seen l, y ∉ seen := by
  intro l
  induction l with
  | nil => intro seen; simp [setDedupAux]
  | cons x xs ih =>
    intro seen
    by_cases hx : x ∈ seen
    · simpa [setDedupAux, hx] using ih seen
    · obtain ⟨h1, h2⟩ := ih (x :: seen)
      simp only [setDedupAux, if_neg hx]
      refine ⟨List.nodup_cons.2 ⟨fun hmem => (h2 x hmem) (List.mem_cons_self x seen), h1⟩, ?_⟩
      intro y hy
      rcases List.mem_cons.1 hy with rfl | hy'
      · exact hx
      · exact fun hc => (h2 y hy') (List.mem_cons_of_mem x hc)

theorem setDedup_nodup (l : List Nat) : (setDedup l).Nodup := (setDedupAux_spec l []).1

theorem sortAsc_pairwise_lt (l : List Nat) (h : l.Nodup) : (sortAsc l).Pairwise (· < ·) := by
  have hs : (sortAsc l).Pairwise (· ≤ ·) := List.sorted_insertionSort _ l
  have hn : (sortAsc l).Pairwise (· ≠ ·) := ((List.perm_insertionSort _ l).nodup_iff).2 h
  exact (hs.and hn).imp (fun hab => lt_of_le_of_ne hab.1 hab.2)

/-! ### Lemmas about the generation-1 paging loop -/

theorem pageStartsFrom_stop (count start : Nat) (h : count ≤ start) :
    pageStartsFrom count start = [] := by
  unfold pageStartsFrom
  have h0 : (count - start + PAGE_SIZE - 1) / PAGE_SIZE = 0 := by
    simp only [PAGE_SIZE]; omega
  rw [h0]
  simp

theorem pageStartsFrom_step (count start : Nat) (h : start < count) :
    pageStartsFrom count start = start :: pageStartsFrom count (start + PAGE_SIZE) := by
  unfold pageStartsFrom
  have hn : (count - start + PAGE_SIZE - 1) / PAGE_SIZE
      = (count - (start + PAGE_SIZE) + PAGE_SIZE - 1) / PAGE_SIZE + 1 := by
    simp only [PAGE_SIZE]; omega
  rw [hn, List.range_succ_eq_map, List.map_cons, List.map_map]
  simp only [List.cons.injEq]
  constructor
  · simp
  · refine List.map_congr_left ?_
    intro i _
    simp only [Function.comp_apply, PAGE_SIZE]
    omega

/-- Sequenced page reads over a list of offsets, failing on the first
thrown read. -/
def readPages (env : GetEnv) : List Nat → Except RErr (List (List RawEntry))
  | [] => .ok []
  | s :: rest =>
    match env.v1Page s with
    | .error e => .error e
    | .ok page =>
      match readPages env rest with
      | .error e => .error e
      | .ok pages => .ok (page :: pages)

theorem fetchV1Loop_eq (env : GetEnv) (count : Nat) :
    ∀ fuel start, count ≤ start + PAGE_SIZE * fuel →
      fetchV1Loop env count fuel start
        = (readPages env (pageStartsFrom count start)).map List.flatten := by
  intro fuel
  induction fuel with
  | zero =>
    intro start h
    rw [pageStartsFrom_stop count start (by simpa using h)]
    simp [fetchV1Loop, readPages, Except.map]
  | succ n ih =>
    intro start h
    by_cases hs : start < count
    · rw [pageStartsFrom_step count start hs]
      simp only [fetchV1Loop, if_pos hs, readPages]
      cases hp : env.v1Page start with
      | error e => simp [Except.map]
      | ok batch =>
        rw [ih (start + PAGE_SIZE) (by simp only [PAGE_SIZE] at h ⊢; omega)]
        cases hrest : readPages env (pageStartsFrom count (start + PAGE_SIZE)) with
        | error e => simp [Except.map]
        | ok pages => simp [Except.map]
    · rw [pageStartsFrom_stop count start (by omega)]
      simp [fetchV1Loop, hs, readPages, Except.map]

/-- C5 (amended): the generation-1 aggregation reads the participant
count upfront and then reads exactly the pages at offsets 0, PAGE_SIZE,
2 * PAGE_SIZE, ... strictly below the count; its termination condition is
the offset reaching the count, never the length of a returned page. -/
theorem claim_C5_v1Paging (env : GetEnv) (count : Nat) (h : env.v1Count = .ok count) :
    fetchV1Entries env = (readPages env (pageStartsFrom count 0)).map List.flatten := by
  unfold fetchV1Entries
  rw [h]
  exact fetchV1Loop_eq env count count 0 (by simp only [PAGE_SIZE]; omega)

/-- Concrete environment for C5: 150 participants, the page at offset 0
holds one entry (fewer than PAGE_SIZE), the page at offset 100 one more. -/
def envC5 : GetEnv where
  neynarApiKey := some "key"
  tokenDecimals := .ok 0
  v1Count := .ok 150
  v1Page := fun s =>
    if s = 0 then .ok [⟨"0xA", 1, 1⟩]
    else if s = 100 then .ok [⟨"0xB", 2, 2⟩] else .error ⟨none, ""⟩
  v2Participant := fun _ => none
  v2Portfolio := fun _ => .error ⟨none, ""⟩
  neynarLookup := fun _ => .error ⟨none, ""⟩

/-- C5 counterexample: the offset-0 page returns fewer entries than
requested, yet paging continues: the offset-100 page is still read and
its entry appears in the result, so a short page is not the termination
condition. -/
theorem claim_C5_v1Paging_cex :
    envC5.v1Page 0 = .ok [⟨"0xA", 1, 1⟩] ∧
    ([(⟨"0xA", 1, 1⟩ : RawEntry)]).length < PAGE_SIZE ∧
    fetchV1Entries envC5 = .ok [⟨"0xA", 1, 1⟩, ⟨"0xB", 2, 2⟩] :=
  ⟨rfl, by decide, by decide⟩

theorem claim_C5_v1Paging_witness :
    fetchV1Entries envC5 = (readPages envC5 (pageStartsFrom 150 0)).map List.flatten :=
  claim_C5_v1Paging envC5 150 rfl

/-! ### Lemmas about the merge map -/

theorem mapGet_set_self {β : Type} : ∀ (m : List (String × β)) (k : String) (v : β),
    mapGet (mapSet m k v) k = some v := by
  intro m k v
  induction m with
  | nil => simp [mapGet, mapSet]
  | cons p ps ih =>
    by_cases hp : p.1 == k
    · simp [mapSet, mapGet, hp]
    · simp only [mapSet, if_neg hp]
      simp only [mapGet, if_neg hp]
      exact ih

theorem mapGet_set_ne {β : Type} : ∀ (m : List (String × β)) (k' k : String) (v : β),
    k' ≠ k → mapGet (mapSet m k' v) k = mapGet m k := by
  intro m k' k v hk
  induction m with
  | nil => simp [mapGet, mapSet, hk]
  | cons p ps ih =>
    by_cases hp : p.1 == k'
    · have hp' : p.1 = k' := by simpa using hp
      simp only [mapSet, if_pos hp]
      simp only [mapGet]
      rw [if_neg (by simpa using hk), if_neg (by rw [hp']; simpa using hk)]
    · simp only [mapSet, if_neg hp]
      simp only [mapGet]
      by_cases hpk : p.1 == k
      · simp only [if_pos hpk]
      · rw [if_neg hpk, if_neg hpk, ih]

theorem addV1_no_key : ∀ (es : List RawEntry) (m : List (String × RawEntry)) (a : String),
    (∀ e ∈ es, lowerStr e.user ≠ a) → mapGet (addV1 m es) a = mapGet m a := by
  intro es
  induction es with
  | nil => intro m a _; simp [addV1]
  | cons e tl ih =>
    intro m a hne
    simp only [addV1, List.foldl_cons]
    rw [show (List.foldl _ _ tl : List (String × RawEntry)) = addV1 _ tl from rfl]
    rw [ih _ a (fun x hx => hne x (List.mem_cons_of_mem e hx))]
    exact mapGet_set_ne m _ a _ (hne e (List.mem_cons_self e tl))

theorem addV1_single : ∀ (es : List RawEntry) (m : List (String × RawEntry)) (a : String)
    (e1 : RawEntry), es.filter (fun e => lowerStr e.user == a) = [e1] →
    mapGet (addV1 m es) a = some ⟨e1.user, e1.totalWinnings, e1.voteCount⟩ := by
  intro es
  induction es with
  | nil => intro m a e1 h; simp at h
  | cons e tl ih =>
    intro m a e1 h
    simp only [addV1, List.foldl_cons]
    rw [show (List.foldl _ _ tl : List (String × RawEntry)) = addV1 _ tl from rfl]
    rw [List.filter_cons] at h
    by_cases he : lowerStr e.user == a
    · rw [if_pos he] at h
      injection h with h1 h2
      subst h1
      have hnil : ∀ x ∈ tl, lowerStr x.user ≠ a := by
        intro x hx
        have := List.filter_eq_nil_iff.1 h2 x hx
        simpa using this
      rw [addV1_no_key tl _ a hnil]
      have hea : lowerStr e.user = a := by simpa using he
      rw [hea]
      exact mapGet_set_self m a _
    · rw [if_neg he] at h
      exact ih _ a e1 h

theorem addV2_no_key : ∀ (es : List RawEntry) (m : List (String × RawEntry)) (a : String),
    (∀ e ∈ es, lowerStr e.user ≠ a) → mapGet (addV2 m es) a = mapGet m a := by
  intro es
  induction es with
  | nil => intro m a _; simp [addV2]
  | cons e tl ih =>
    intro m a hne
    simp only [addV2, List.foldl_cons]
    rw [show (List.foldl _ _ tl : List (String × RawEntry)) = addV2 _ tl from rfl]
    cases hg : mapGet m (lowerStr e.user) with
    | some ex =>
      show mapGet (addV2 (mapSet m (lowerStr e.user)
        ⟨e.user, ex.totalWinnings + e.totalWinnings, ex.voteCount + e.voteCount⟩) tl) a
          = mapGet m a
      rw [ih _ a (fun x hx => hne x (List.mem_cons_of_mem e hx))]
      exact mapGet_set_ne m _ a _ (hne e (List.mem_cons_self e tl))
    | none =>
      show mapGet (addV2 (mapSet m (lowerStr e.user)
        ⟨e.user, e.totalWinnings, e.voteCount⟩) tl) a = mapGet m a
      rw [ih _ a (fun x hx => hne x (List.mem_cons_of_mem e hx))]
      exact mapGet_set_ne m _ a _ (hne e (List.mem_cons_self e tl))

theorem addV2_single : ∀ (es : List RawEntry) (m : List (String × RawEntry)) (a : String)
    (e2 : RawEntry), es.filter (fun e => lowerStr e.user == a) = [e2] →
    mapGet (addV2 m es) a
      = some (match mapGet m a with
              | some ex => ⟨e2.user, ex.totalWinnings + e2.totalWinnings,
                           ex.voteCount + e2.voteCount⟩
              | none => ⟨e2.user, e2.totalWinnings, e2.voteCount⟩) := by
  intro es
  induction es with
  | nil => intro m a e2 h; simp at h
  | cons e tl ih =>
    intro m a e2 h
    simp only [addV2, List.foldl_cons]
    rw [show (List.foldl _ _ tl : List (String × RawEntry)) = addV2 _ tl from rfl]
    rw [List.filter_cons] at h
    by_cases he : lowerStr e.user == a
    · rw [if_pos he] at h
      injection h with h1 h2
      subst h1
      have hnil : ∀ x ∈ tl, lowerStr x.user ≠ a := by
        intro x hx
        have := List.filter_eq_nil_iff.1 h2 x hx
        simpa using this
      have hea : lowerStr e.user = a := by simpa using he
      rw [hea]
      cases hg : mapGet m a with
      | some ex =>
        show mapGet (addV2 (mapSet m a
          ⟨e.user, ex.totalWinnings + e.totalWinnings, ex.voteCount + e.voteCount⟩) tl) a
            = some ⟨e.user, ex.totalWinnings + e.totalWinnings, ex.voteCount + e.voteCount⟩
        rw [addV2_no_key tl _ a hnil]
        exact mapGet_set_self m a _
      | none =>
        show mapGet (addV2 (mapSet m a
          ⟨e.user, e.totalWinnings, e.voteCount⟩) tl) a
            = some ⟨e.user, e.totalWinnings, e.voteCount⟩
        rw [addV2_no_key tl _ a hnil]
        exact mapGet_set_self m a _
    · rw [if_neg he] at h
      cases hg : mapGet m (lowerStr e.user) with
      | some ex =>
        show mapGet (addV2 (mapSet m (lowerStr e.user)
          ⟨e.user, ex.totalWinnings + e.totalWinnings, ex.voteCount + e.voteCount⟩) tl) a
            = some (match mapGet m a with
                    | some ex => ⟨e2.user, ex.totalWinnings + e2.totalWinnings,
                                 ex.voteCount + e2.voteCount⟩
                    | none => ⟨e2.user, e2.totalWinnings, e2.voteCount⟩)
        rw [ih _ a e2 h, mapGet_set_ne m _ a _ (by simpa using he)]
      | none =>
        show mapGet (addV2 (mapSet m (lowerStr e.user)
          ⟨e.user, e.totalWinnings, e.voteCount⟩) tl) a
            = some (match mapGet m a with
                    | some ex => ⟨e2.user, ex.totalWinnings + e2.totalWinnings,
                                 ex.voteCount + e2.voteCount⟩
                    | none => ⟨e2.user, e2.totalWinnings, e2.voteCount⟩)
        rw [ih _ a e2 h, mapGet_set_ne m _ a _ (by simpa using he)]

/-- C3: in the merged leaderboard map, a wallet present (case-insensitively)
exactly once in each generation gets the sum of both generations'
winnings and trade counts; a wallet present in only one generation keeps
that generation's values as-is; lookups are keyed by the lowercased
address. -/
theorem claim_C3_mergeCorrectness (es1 es2 : List RawEntry) (a : String) :
    (∀ e1 e2, es1.filter (fun e => lowerStr e.user == a) = [e1] →
      es2.filter (fun e => lowerStr e.user == a) = [e2] →
      mapGet (mergeEntries es1 es2) a
        = some ⟨e2.user, e1.totalWinnings + e2.totalWinnings,
                e1.voteCount + e2.voteCount⟩) ∧
    (∀ e1, es1.filter (fun e => lowerStr e.user == a) = [e1] →
      es2.filter (fun e => lowerStr e.user == a) = [] →
      mapGet (mergeEntries es1 es2) a
        = some ⟨e1.user, e1.totalWinnings, e1.voteCount⟩) ∧
    (∀ e2, es1.filter (fun e => lowerStr e.user == a) = [] →
      es2.filter (fun e => lowerStr e.user == a) = [e2] →
      mapGet (mergeEntries es1 es2) a
        = some ⟨e2.user, e2.totalWinnings, e2.voteCount⟩) := by
  refine ⟨?_, ?_, ?_⟩
  · intro e1 e2 h1 h2
    unfold mergeEntries
    rw [addV2_single es2 _ a e2 h2, addV1_single es1 [] a e1 h1]
  · intro e1 h1 h2
    unfold mergeEntries
    have hnil : ∀ x ∈ es2, lowerStr x.user ≠ a := by
      intro x hx
      have := List.filter_eq_nil_iff.1 h2 x hx
      simpa using this
    rw [addV2_no_key es2 _ a hnil, addV1_single es1 [] a e1 h1]
  · intro e2 h1 h2
    unfold mergeEntries
    have hnil : ∀ x ∈ es1, lowerStr x.user ≠ a := by
      intro x hx
      have := List.filter_eq_nil_iff.1 h1 x hx
      simpa using this
    rw [addV2_single es2 _ a e2 h2, addV1_no_key es1 [] a hnil]
    rfl

theorem claim_C3_mergeCorrectness_witness :
    mapGet (mergeEntries [⟨"0xAb", 100, 2⟩] [⟨"0xaB", 50, 3⟩]) "0xab"
      = some ⟨"0xaB", 150, 5⟩ :=
  (claim_C3_mergeCorrectness [⟨"0xAb", 100, 2⟩] [⟨"0xaB", 50, 3⟩] "0xab").1
    ⟨"0xAb", 100, 2⟩ ⟨"0xaB", 50, 3⟩ (by decide) (by decide)

/-- Concrete environment for the C6 scenario: the trade history has
entries referencing markets 3, 7, 3 and every other read throws. -/
def env6 : ChainEnv where
  marketCount := .error ⟨none, ""⟩
  payoutPerShare := .error ⟨none, ""⟩
  basicInfo := fun _ => .error ⟨none, ""⟩
  extendedMeta := fun _ => .error ⟨none, ""⟩
  optionShares := fun _ _ _ => .error ⟨none, ""⟩
  simulateClaim := fun _ _ => .error ⟨none, ""⟩
  tradeEntry := fun _ i =>
    if i = 0 then some 3 else if i = 1 then some 7 else if i = 2 then some 3 else none

/-- C6: the participated-markets list of the POST handler is always
deduplicated and strictly ascending; in particular trade-history entries
referencing markets 3, 7, 3 yield exactly the list 3, 7. -/
theorem claim_C6_dedup_ascending :
    (∀ (env : ChainEnv) (wallet : String),
      (participatedMarketsOf env wallet).Pairwise (· < ·)) ∧
    participatedMarketsOf env6 "0xwallet" = [3, 7] := by
  constructor
  · intro env wallet
    exact sortAsc_pairwise_lt _ (setDedup_nodup _)
  · decide

/-! ### Lemmas about the leaderboard refresh and the GET handler -/

theorem refreshBody_ok (env : GetEnv) (now : Nat) (s : SysState) (lb : List LeaderboardEntry)
    (s2 : SysState) (h : refreshBody env now s = .ok (lb, s2)) :
    ∃ d entriesV1 userMap, env.tokenDecimals = .ok d ∧
      lb = buildLeaderboard (buildWinners (mergeEntries entriesV1 (fetchV2Entries env)) d)
        userMap := by
  unfold refreshBody at h
  split at h
  · exact absurd h (by simp)
  next d hd =>
    split at h
    · exact absurd h (by simp)
    next entriesV1 h1 =>
      simp only [Except.ok.injEq, Prod.mk.injEq] at h
      exact ⟨d, entriesV1, _, hd, h.1.symm⟩

theorem buildLeaderboard_props (winners : List Winner)
    (userMap : List (String × List NeynarUser)) :
    (buildLeaderboard winners userMap).length ≤ 10 ∧
    (buildLeaderboard winners userMap).Pairwise winningsDesc ∧
    ∀ x ∈ buildLeaderboard winners userMap, ∃ w ∈ winners, x.winnings = w.winnings := by
  refine ⟨?_, ?_, ?_⟩
  · exact List.length_take_le 10 _
  · unfold buildLeaderboard
    refine List.Pairwise.sublist (List.take_sublist _ _) ?_
    haveI ht : IsTotal LeaderboardEntry winningsDesc :=
      ⟨fun a b => le_total b.winnings a.winnings⟩
    haveI htr : IsTrans LeaderboardEntry winningsDesc :=
      ⟨fun _ _ _ h1 h2 => le_trans h2 h1⟩
    exact List.sorted_insertionSort winningsDesc _
  · intro x hx
    have hx1 : x ∈ List.insertionSort winningsDesc (winners.map (enrichWinner userMap)) :=
      List.mem_of_mem_take hx
    have hx2 : x ∈ winners.map (enrichWinner userMap) :=
      ((List.perm_insertionSort winningsDesc _).mem_iff).1 hx1
    obtain ⟨w, hw, rfl⟩ := List.mem_map.1 hx2
    exact ⟨w, hw, rfl⟩

theorem buildWinners_mem (combined : List (String × RawEntry)) (d : Nat) (w : Winner)
    (hw : w ∈ buildWinners combined d) :
    ∃ rawW : Nat, 0 < rawW ∧ w.winnings = (rawW : ℚ) / 10 ^ d := by
  unfold buildWinners at hw
  obtain ⟨e, he, rfl⟩ := List.mem_map.1 hw
  have hpos := List.of_mem_filter he
  exact ⟨e.totalWinnings, by simpa using hpos, rfl⟩

/-- C9: every leaderboard list produced by a successful refresh has at
most 10 entries, is sorted descending by winnings, and every entry's
winnings amount is a positive fixed-point integer divided by 10 to the
token-decimals read in that aggregation, hence strictly positive. -/
theorem claim_C9_leaderboardShape (env : GetEnv) (now : Nat) (s : SysState) (d : Nat)
    (lb : List LeaderboardEntry) (s2 : SysState)
    (hd : env.tokenDecimals = .ok d) (h : refreshBody env now s = .ok (lb, s2)) :
    lb.length ≤ 10 ∧
    lb.Pairwise (fun a b => b.winnings ≤ a.winnings) ∧
    ∀ x ∈ lb, ∃ rawW : Nat, 0 < rawW ∧ x.winnings = (rawW : ℚ) / 10 ^ d ∧ 0 < x.winnings := by
  obtain ⟨d', entriesV1, userMap, hd', hlb⟩ := refreshBody_ok env now s lb s2 h
  rw [hd] at hd'
  injection hd' with hd'
  subst hd'
  subst hlb
  obtain ⟨hlen, hpair, hmem⟩ := buildLeaderboard_props _ userMap
  refine ⟨hlen, hpair, ?_⟩
  intro x hx
  obtain ⟨w, hw, hxw⟩ := hmem x hx
  obtain ⟨rawW, hpos, hww⟩ := buildWinners_mem _ _ w hw
  refine ⟨rawW, hpos, by rw [hxw, hww], ?_⟩
  rw [hxw, hww]
  exact div_pos (by exact_mod_cast hpos) (by positivity)

/-- Concrete environment for the C9 witness: one generation-1 wallet
with 5 raw winnings units, no generation-2 participants, a failing
identity lookup, and zero token decimals. -/
def envC9 : GetEnv where
  neynarApiKey := some "key"
  tokenDecimals := .ok 0
  v1Count := .ok 1
  v1Page := fun _ => .ok [⟨"0xAABBCCDD", 5, 1⟩]
  v2Participant := fun _ => none
  v2Portfolio := fun _ => .error ⟨none, ""⟩
  neynarLookup := fun _ => .error ⟨none, ""⟩

/-- Initial cache state used by the leaderboard witnesses. -/
def sC9 : SysState := ⟨none, none⟩

/-- Leaderboard list produced by the C9 witness refresh. -/
def lbW : List LeaderboardEntry :=
  match refreshBody envC9 0 sC9 with
  | .ok p => p.1
  | .error _ => []

/-- Cache state produced by the C9 witness refresh. -/
def s2W : SysState :=
  match refreshBody envC9 0 sC9 with
  | .ok p => p.2
  | .error _ => sC9

theorem claim_C9_leaderboardShape_witness :
    lbW.length ≤ 10 ∧
    lbW.Pairwise (fun a b => b.winnings ≤ a.winnings) ∧
    ∀ x ∈ lbW, ∃ rawW : Nat, 0 < rawW ∧ x.winnings = (rawW : ℚ) / 10 ^ 0 ∧ 0 < x.winnings :=
  claim_C9_leaderboardShape envC9 0 sC9 0 lbW s2W rfl rfl

/-- Entry populating the cache in the C1 scenario. -/
def entryC1 : LeaderboardEntry := ⟨"alice", "1", none, 5, 2, "0xalice"⟩

/-- Cache state holding a leaderboard entry that expired at instant 1000. -/
def sC1 : SysState := ⟨some ([entryC1], 1000), none⟩

/-- Environment for the C1 scenario: the credential is present but every
remote read throws, so any refresh fails. -/
def envC1 : GetEnv where
  neynarApiKey := some "key"
  tokenDecimals := .error ⟨none, "rpc down"⟩
  v1Count := .error ⟨none, "rpc down"⟩
  v1Page := fun _ => .error ⟨none, "rpc down"⟩
  v2Participant := fun _ => none
  v2Portfolio := fun _ => .error ⟨none, "rpc down"⟩
  neynarLookup := fun _ => .error ⟨none, "rpc down"⟩

/-- C1 counterexample: at instant 2000 the previously populated cache
entry is past its expiry 1000; the refresh throws, and the handler
returns the failure response, not the prior cached list: NodeCache
evicts expired entries, so the last value cannot be served past its
nominal TTL. -/
theorem claim_C1_staleCache_cex :
    (GET envC1 2000 sC1).1 = .fetchError ∧ (GET envC1 2000 sC1).1 ≠ .ok [entryC1] := by
  constructor
  · rfl
  · decide

/-- C1 (amended): a prior cached leaderboard is returned unchanged on any
request while the entry is unexpired (no refresh is attempted at all);
once the entry is strictly past its nominal expiry it has been evicted
by the cache get, so a request whose refresh throws yields the failure
response instead of the stale list. -/
theorem claim_C1_staleCache (env : GetEnv) (now : Nat) (s : SysState) :
    (∀ v s', cacheGetLB now s = (some v, s') → GET env now s = (.ok v, s')) ∧
    (∀ v t k e, s.lb = some (v, t) → t ≠ 0 → t < now → env.neynarApiKey = some k →
      refreshBody env now { lb := none, ny := s.ny } = .error e →
      (GET env now s).1 = .fetchError) := by
  constructor
  · intro v s' h
    unfold GET
    rw [h]
  · intro v t k e hlb ht0 htlt hk hrb
    have hget : cacheGetLB now s = (none, { lb := none, ny := s.ny }) := by
      unfold cacheGetLB
      rw [hlb]
      show (if t = 0 ∨ now ≤ t then (some v, s) else (none, { lb := none, ny := s.ny }))
          = (none, { lb := none, ny := s.ny })
      rw [if_neg (by omega)]
    unfold GET
    simp only [hget, hk, hrb]
    rfl

/-- A still-live cache state for the C1 and C10 witnesses: the entry
expires at instant 5000, after the request instant 2000. -/
def sW1 : SysState := ⟨some ([entryC1], 5000), none⟩

theorem claim_C1_staleCache_witness :
    GET envC1 2000 sW1 = (.ok [entryC1], sW1) ∧ (GET envC1 2000 sC1).1 = .fetchError := by
  constructor
  · exact (claim_C1_staleCache envC1 2000 sW1).1 [entryC1] sW1 rfl
  · exact (claim_C1_staleCache envC1 2000 sC1).2 [entryC1] 1000 "key" ⟨none, "rpc down"⟩
      rfl (by decide) (by decide) rfl rfl

/-- C10: when the cache holds a live leaderboard entry, GET returns it
immediately with the state untouched, and the response does not depend
on the environment at all: no ledger read, no identity lookup, and no
credential check happen, so a missing NEYNAR_API_KEY cannot produce an
error on this path. -/
theorem claim_C10_cacheHit_frame (env : GetEnv) (now : Nat) (s : SysState)
    (v : List LeaderboardEntry) (s' : SysState)
    (h : cacheGetLB now s = (some v, s')) :
    GET env now s = (.ok v, s') ∧ ∀ env2 : GetEnv, GET env2 now s = GET env now s := by
  have hall : ∀ e : GetEnv, GET e now s = (.ok v, s') := by
    intro e
    unfold GET
    rw [h]
  exact ⟨hall env, fun env2 => by rw [hall env2, hall env]⟩

/-- Environment with the identity-service credential missing and every
remote read throwing, for the C10 witness: the cache-hit path still
serves the cached list. -/
def envC10 : GetEnv where
  neynarApiKey := none
  tokenDecimals := .error ⟨none, "rpc down"⟩
  v1Count := .error ⟨none, "rpc down"⟩
  v1Page := fun _ => .error ⟨none, "rpc down"⟩
  v2Participant := fun _ => none
  v2Portfolio := fun _ => .error ⟨none, "rpc down"⟩
  neynarLookup := fun _ => .error ⟨none, "rpc down"⟩

theorem claim_C10_cacheHit_frame_witness :
    GET envC10 2000 sW1 = (.ok [entryC1], sW1) ∧
    ∀ env2 : GetEnv, GET env2 2000 sW1 = GET envC10 2000 sW1 :=
  claim_C10_cacheHit_frame envC10 2000 sW1 [entryC1] sW1 rfl

end DeltaWallet
